import Mathlib

/-!
Verification development for the ScoreForge command pipeline
(`sheet_music_scanner/core/command_parser.py` and
`sheet_music_scanner/core/command_executor.py`).

The Python source is shallowly embedded: every definition below mirrors one
function or data structure of the source, keeping its control flow.  Python
strings are modelled as `List Char` (converted from Lean `String` at the API
boundary), so that every operation is an executable structural recursion.
Python float `quarterLength`s are modelled as natural numbers counting
sixteenths of a quarter note (16 units = 1.0 beat): every duration value of
the source (`DURATION_MAP` entries 4.0 … 0.125 and their dotted `* 1.5`
variants) is an exact multiple of 1/16, and all source arithmetic on them is
exact in IEEE floats, so the unit change is faithful.  music21 objects are
modelled by the data the executor stores into them and later reads back.
-/

namespace ScoreForge

/-- Embeds the `Duration` enum of `command_parser.py`. -/
inductive Duration where
  | whole
  | half
  | quarter
  | eighth
  | sixteenth
  | thirtysecond
deriving DecidableEq, Repr

/-- Embeds `Duration.from_code` restricted to a single letter, as it is only
called on group(1) of `DURATION_PATTERN` (one char of `whqest`, any case);
the source lowercases and strips a trailing dot before comparing. -/
def durFromCode (c : Char) : Option Duration :=
  match c.toLower with
  | 'w' => some .whole
  | 'h' => some .half
  | 'q' => some .quarter
  | 'e' => some .eighth
  | 's' => some .sixteenth
  | 't' => some .thirtysecond
  | _   => none

/-- Embeds the dataclass `ParsedNote` (fields in source order). -/
structure ParsedNote where
  pitch : String
  duration : Duration
  dotted : Bool
  lyric : Option String
  tied : Bool
  slurred : Bool
deriving DecidableEq, Repr

/-- Embeds the dataclass `ParsedRest`. -/
structure ParsedRest where
  duration : Duration
  dotted : Bool
deriving DecidableEq, Repr

/-- Embeds the dataclass `ParsedChord`. -/
structure ParsedChord where
  notes : List ParsedNote
  duration : Duration
  dotted : Bool
  lyric : Option String
deriving DecidableEq, Repr

/-- Embeds the `style` string field of the dataclass `ParsedBarline`, which
takes only the three values below. -/
inductive BarStyle where
  | single
  | double
  | final
deriving DecidableEq, Repr

/-- Embeds the dataclass `ParsedCommand`. -/
structure ParsedCommand where
  command : String
  value : String
deriving DecidableEq, Repr

/-- Embeds the `ParsedElement` union of `command_parser.py`. -/
inductive ParsedElement where
  | note (n : ParsedNote)
  | rest (r : ParsedRest)
  | chord (c : ParsedChord)
  | barline (b : BarStyle)
  | command (c : ParsedCommand)
deriving DecidableEq, Repr

/-- Embeds the `CommandParseError` records (`{message, line, position}`) that
`CommandParser.parse` would accumulate in `self.errors`. -/
structure CommandParseError where
  message : String
  line : Nat
  position : Nat
deriving DecidableEq, Repr

/-- Embeds Python `str.strip()`: drop whitespace from both ends. -/
def trimChars (l : List Char) : List Char :=
  ((l.dropWhile Char.isWhitespace).reverse.dropWhile Char.isWhitespace).reverse

/-- Embeds Python `str.split("\n")`: split at every newline, keeping empty
pieces (`"".split("\n") == [""]`). -/
def splitNl : List Char → List (List Char)
  | [] => [[]]
  | c :: cs =>
    let r := splitNl cs
    if c = '\n' then [] :: r
    else
      match r with
      | h :: t => (c :: h) :: t
      | [] => [[c]]

/-- Embeds Python no-argument `str.split()` as used on the chord content:
split at whitespace runs, discarding empty pieces. -/
def splitWsRaw : List Char → List (List Char)
  | [] => [[]]
  | c :: cs =>
    let r := splitWsRaw cs
    if c.isWhitespace then [] :: r
    else
      match r with
      | h :: t => (c :: h) :: t
      | [] => [[c]]

/-- Whitespace-separated words of a character list (Python `str.split()`). -/
def wordsOf (l : List Char) : List (List Char) :=
  (splitWsRaw l).filter (fun w => !w.isEmpty)

/-- True on `A`-`G` and `a`-`g`, the letter alternative of `PITCH_PATTERN`. -/
def isNoteLetter (c : Char) : Bool :=
  ('A' ≤ c && c ≤ 'G') || ('a' ≤ c && c ≤ 'g')

/-- True on `#` and `b`, the accidental alternative of `PITCH_PATTERN`. -/
def isAccidental (c : Char) : Bool :=
  c = '#' || c = 'b'

/-- Embeds `PITCH_PATTERN = ^([A-Ga-g])([#b]{0,2})(\d)$` and with it
`CommandParser._is_pitch`: a letter, zero to two accidentals, one digit,
anchored at both ends of the token. -/
def isPitch : List Char → Bool
  | [l, d] => isNoteLetter l && d.isDigit
  | [l, a, d] => isNoteLetter l && isAccidental a && d.isDigit
  | [l, a, a2, d] => isNoteLetter l && isAccidental a && isAccidental a2 && d.isDigit
  | _ => false

/-- Embeds `CommandParser._parse_duration_token`: full match of
`DURATION_PATTERN = ^([whqest])(\.?)$` (case-insensitive); on success the
duration from the letter and the dotted flag, else `(none, false)`. -/
def parseDurationToken (s : List Char) : Option Duration × Bool :=
  match s with
  | [c] => (durFromCode c, false)
  | [c, '.'] =>
    match durFromCode c with
    | some d => (some d, true)
    | none => (none, false)
  | _ => (none, false)

/-- Embeds `LYRIC_PATTERN.match(token)` with pattern `"([^"]*)"`: the token
must start with `"` and contain a closing `"`; group(1) is the text up to the
first closing quote.  (`re.match` anchors at the start only, so trailing
characters after the closing quote are allowed.) -/
def lyricMatch (s : List Char) : Option (List Char) :=
  match s with
  | '"' :: rest =>
    if (rest.dropWhile (fun c => c ≠ '"')).isEmpty then none
    else some (rest.takeWhile (fun c => c ≠ '"'))
  | _ => none

/-- Case-insensitively consumes the (lowercase) keyword characters from the
front of a line, returning the remainder on success. -/
def dropKwCI : List Char → List Char → Option (List Char)
  | [], rest => some rest
  | _ :: _, [] => none
  | k :: ks, c :: cs => if c.toLower = k then dropKwCI ks cs else none

/-- One alternative of `COMMAND_PATTERN = ^(key|time|tempo|clef):\s*(.+)$`
(case-insensitive): the keyword, a colon, optional whitespace, then a
non-empty remainder; returns the lowercased keyword together with the trimmed
remainder, exactly the two fields `_parse_line` stores in `ParsedCommand`. -/
def kwCommand (kw : String) (line : List Char) : Option ParsedCommand :=
  match dropKwCI kw.data line with
  | some (':' :: rest) =>
    let val := rest.dropWhile Char.isWhitespace
    if val.isEmpty then none
    else some ⟨kw, String.mk (trimChars val)⟩
  | _ => none

/-- Embeds the `COMMAND_PATTERN` match of `_parse_line`; the four keyword
alternatives are mutually exclusive because each must be followed by `:`. -/
def commandMatch (line : List Char) : Option ParsedCommand :=
  (kwCommand "key" line).orElse fun _ =>
  (kwCommand "time" line).orElse fun _ =>
  (kwCommand "tempo" line).orElse fun _ =>
  kwCommand "clef" line

/-- Embeds membership in `BARLINE_PATTERNS` (both the whole-line comparison
loop and the `token in self.BARLINE_PATTERNS` check), with the mapped
style. -/
def barlineStyle (s : List Char) : Option BarStyle :=
  if s = ['|', '|', '|'] then some .final
  else if s = ['|', '|'] then some .double
  else if s = ['|'] then some .single
  else if s = ['m', 'e', 'a', 's', 'u', 'r', 'e'] then some .single
  else none

/-- Accumulator state of the character scan in `CommandParser._tokenize`. -/
structure TokState where
  tokens : List (List Char)
  current : List Char
  inQuotes : Bool
  inBrackets : Bool
deriving Repr

/-- Pushes `current` (trimmed) onto the token list when non-empty, the
`if current.strip(): tokens.append(current.strip())` idiom of the source. -/
def flushTok (tokens : List (List Char)) (current : List Char) : List (List Char) :=
  if (trimChars current).isEmpty then tokens else tokens ++ [trimChars current]

/-- One character step of `CommandParser._tokenize`. -/
def tokStep (st : TokState) (ch : Char) : TokState :=
  if ch = '"' then
    { st with inQuotes := !st.inQuotes, current := st.current ++ [ch] }
  else if ch = '[' then
    { st with inBrackets := true,
              tokens := flushTok st.tokens st.current,
              current := [ch] }
  else if ch = ']' then
    { st with inBrackets := false,
              tokens := st.tokens ++ [trimChars (st.current ++ [ch])],
              current := [] }
  else if ch.isWhitespace && !st.inQuotes && !st.inBrackets then
    { st with tokens := flushTok st.tokens st.current, current := [] }
  else
    { st with current := st.current ++ [ch] }

/-- Embeds `CommandParser._tokenize`: the left-to-right scan followed by the
final flush of a pending token. -/
def tokenize (line : List Char) : List (List Char) :=
  let st := line.foldl tokStep ⟨[], [], false, false⟩
  flushTok st.tokens st.current

/-- True when the token starts with `[` (Python `token.startswith("[")`). -/
def startsBracket : List Char → Bool
  | '[' :: _ => true
  | _ => false

/-- True when the token ends with the given character (Python
`token.endswith(c)` for a one-character suffix). -/
def endsWithChar (c : Char) (s : List Char) : Bool :=
  s.getLast? = some c

/-- Embeds the string slice `chord_token[1:-1]` of `_parse_chord` (drop the
first and the last character). -/
def sliceInner (s : List Char) : List Char :=
  (s.drop 1).dropLast

/-- Embeds the absorption loop of `_parse_chord`: starting from the opening
token, keep appending following tokens (space-separated) until one ends with
`]` or the tokens run out.  The source does not advance `consumed` here. -/
def chordAbsorb (acc : List Char) : List (List Char) → List Char
  | [] => acc
  | t :: r =>
    let acc2 := acc ++ [' '] ++ t
    if endsWithChar ']' t then acc2 else chordAbsorb acc2 r

/-- Embeds the default-constructed `ParsedNote(pitch=p.upper())` used for the
pitches inside a chord. -/
def chordNote (p : List Char) : ParsedNote :=
  ⟨String.mk (p.map Char.toUpper), .quarter, false, none, false, false⟩

/-- Shared duration-then-lyric lookahead of `_parse_note` and `_parse_chord`:
given the tokens after the leading one and the count consumed so far (1),
consume an optional duration token and then an optional quoted-lyric token;
returns duration, dotted flag, lyric, and the total consumed count. -/
def lookahead (rest : List (List Char)) :
    Duration × Bool × Option String × Nat :=
  let (dur, dotted, rest2, consumed2) :=
    match rest with
    | [] => (Duration.quarter, false, ([] : List (List Char)), 1)
    | t :: r =>
      match parseDurationToken t with
      | (some d, dot) => (d, dot, r, 2)
      | (none, _) => (Duration.quarter, false, t :: r, 1)
  let (lyr, consumed3) :=
    match rest2 with
    | [] => ((none : Option String), consumed2)
    | t :: _ =>
      match lyricMatch t with
      | some s => (some (String.mk s), consumed2 + 1)
      | none => (none, consumed2)
  (dur, dotted, lyr, consumed3)

/-- Embeds `CommandParser._parse_chord`: returns the chord (or `none` when no
bracketed pitch is valid) and the number of tokens consumed. -/
def parseChord (tokens : List (List Char)) : Option ParsedChord × Nat :=
  match tokens with
  | [] => (none, 0)
  | t0 :: rest =>
    if !startsBracket t0 then (none, 0)
    else
      let chordTok := if endsWithChar ']' t0 then t0 else chordAbsorb t0 rest
      let content := trimChars (sliceInner chordTok)
      let notes := ((wordsOf content).filter isPitch).map chordNote
      if notes.isEmpty then (none, 0)
      else
        let (dur, dotted, lyr, consumed) := lookahead rest
        (some ⟨notes, dur, dotted, lyr⟩, consumed)

/-- Embeds `CommandParser._parse_note`: returns the note (or `none` when the
leading token is not a pitch) and the number of tokens consumed.  The
tie-stripping branch (`if pitch.endswith("-")`) is kept although the
preceding `_is_pitch` guard already rejects every token ending in `-`. -/
def parseNote (tokens : List (List Char)) : Option ParsedNote × Nat :=
  match tokens with
  | [] => (none, 0)
  | pitch0 :: rest =>
    if !isPitch pitch0 then (none, 0)
    else
      let (pitch1, tied) :=
        if endsWithChar '-' pitch0 then (pitch0.dropLast, true)
        else (pitch0, false)
      let (dur, dotted, lyr, consumed) := lookahead rest
      (some ⟨String.mk (pitch1.map Char.toUpper), dur, dotted, lyr, tied, false⟩,
       consumed)

/-- One iteration of the token loop of `_parse_line`, on the current token and
the remaining tokens: the optionally emitted element and how many tokens of
`rest` to drop before the next iteration (the source advances `i` by one plus
that count).  The chord arm falls through to the barline/pitch/unknown checks
when `_parse_chord` returns no chord, exactly as the source's `if chord:`
guard does. -/
def stepTok (tok : List Char) (rest : List (List Char)) :
    Option ParsedElement × Nat :=
  if tok.map Char.toLower = ['r'] then
    match parseDurationToken (rest.headD ['q']) with
    | (some d, dotted) => (some (.rest ⟨d, dotted⟩), 1)
    | (none, _) => (some (.rest ⟨.quarter, false⟩), 0)
  else
    let fallthrough : Option ParsedElement × Nat :=
      match barlineStyle tok with
      | some st => (some (.barline st), 0)
      | none =>
        if isPitch tok then
          match parseNote (tok :: rest) with
          | (some n, consumed) => (some (.note n), consumed - 1)
          | (none, _) => (none, 0)
        else (none, 0)
    if startsBracket tok then
      match parseChord (tok :: rest) with
      | (some c, consumed) => (some (.chord c), consumed - 1)
      | (none, _) => fallthrough
    else fallthrough

/-- Embeds the `while i < len(tokens)` loop of `_parse_line`.  The index
advances by at least one per iteration, so the loop runs at most
`len(tokens)` times; the fuel argument carries that bound structurally. -/
def parseTokensAux : Nat → List (List Char) → List ParsedElement
  | 0, _ => []
  | _, [] => []
  | fuel + 1, tok :: rest =>
    (stepTok tok rest).1.toList ++
      parseTokensAux fuel (rest.drop (stepTok tok rest).2)

/-- Token loop of `_parse_line` run to completion. -/
def parseTokens (ts : List (List Char)) : List ParsedElement :=
  parseTokensAux ts.length ts

/-- Embeds `CommandParser._parse_line` on an already-stripped line: command
match first, then whole-line barline, then the token loop. -/
def parseLine (line : List Char) : List ParsedElement :=
  match commandMatch line with
  | some c => [.command c]
  | none =>
    match barlineStyle line with
    | some st => [.barline st]
    | none => parseTokens (tokenize line)

/-- Diagnostics contributed by one line of `CommandParser.parse`.  Modelled
from the source: `_parse_line` and every helper it calls contain no `raise`
statement, and `CommandParseError` is the only exception type the
`try/except` in `parse` catches, so the except branch never appends and each
line contributes the empty list. -/
def lineDiagnostics (_line : List Char) : List CommandParseError := []

/-- Elements and diagnostics contributed by one raw line of the input text:
nothing for a blank or `#`-comment line, else the `_parse_line` output and
the line's diagnostics. -/
def lineContrib (raw : List Char) : List ParsedElement × List CommandParseError :=
  let line := trimChars raw
  if line.isEmpty || line.headD ' ' = '#' then ([], [])
  else (parseLine line, lineDiagnostics line)

/-- Embeds `CommandParser.parse`: strip, split into lines, skip blank and
`#`-comment lines, extend the element list with each line's elements and the
error list with each line's diagnostics. -/
def parse (text : String) : List ParsedElement × List CommandParseError :=
  (splitNl (trimChars text.data)).foldl
    (fun acc raw =>
      (acc.1 ++ (lineContrib raw).1, acc.2 ++ (lineContrib raw).2))
    ([], [])

/-- Embeds `CommandParser.validate`: re-run `parse` and return the
accumulated errors. -/
def validate (text : String) : List CommandParseError :=
  (parse text).2

/-! ## Executor (`command_executor.py`)

music21 objects are modelled by the data the executor reads back: duration
`quarterLength`s in sixteenth units, tie marks, lyric, and the class tags
used by `current_measure.notes` (notes and chords, not rests) and
`current_measure.getElementsByClass(clef.Clef)`. -/

/-- Tie expression attached to a music21 note (`expressions.Tie("start")` /
`expressions.Tie("stop")`). -/
inductive TieMark where
  | start
  | stop
deriving DecidableEq, Repr

/-- Model of the music21 `note.Note` built by `_create_note`: the data the
executor sets and later reads.  `ql` is the `quarterLength` in sixteenth
units. -/
structure M21Note where
  pitch : String
  ql : Nat
  lyric : Option String
  tie : Option TieMark
deriving DecidableEq, Repr

/-- Model of a music21 object appended to a measure by
`create_score_from_elements`: an event (note, rest, chord) with its
`quarterLength` in sixteenth units, or a zero-duration marking (clef, key
signature, time signature, metronome mark). -/
inductive M21Obj where
  | note (n : M21Note)
  | rest (ql : Nat)
  | chord (pitches : List String) (ql : Nat) (lyric : Option String)
  | clefObj
  | keyObj
  | timeObj (beats : Nat)
  | tempoObj
deriving DecidableEq, Repr

/-- Model of the music21 objects `_create_command_element` can return: a key
signature, a time signature (carrying, in sixteenth units, the value
`beatCount * (4.0 / beatDuration.quarterLength)` the executor derives from
it), a metronome mark, or a clef.  The interpretation of a command value is
done by music21, outside this repository, so the builder below is
parameterized over it. -/
inductive M21Marking where
  | clefM
  | keyM
  | timeM (beats : Nat)
  | tempoM
deriving DecidableEq, Repr

/-- Injects a marking into the measure-content type. -/
def markingObj : M21Marking → M21Obj
  | .clefM => .clefObj
  | .keyM => .keyObj
  | .timeM b => .timeObj b
  | .tempoM => .tempoObj

/-- Embeds `CommandExecutor.DURATION_MAP` (4.0, 2.0, 1.0, 0.5, 0.25, 0.125
quarter notes) in sixteenth units. -/
def durationMap16 : Duration → Nat
  | .whole => 64
  | .half => 32
  | .quarter => 16
  | .eighth => 8
  | .sixteenth => 4
  | .thirtysecond => 2

/-- Effective `quarterLength` of a parsed event in sixteenth units: the
`DURATION_MAP` lookup followed by the `*= 1.5` dotted branch shared by
`_create_note`, `_create_rest` and `_create_chord`.  Every `DURATION_MAP`
value is even, so the multiplication by 3/2 is exact. -/
def elemQL (d : Duration) (dotted : Bool) : Nat :=
  if dotted then durationMap16 d * 3 / 2 else durationMap16 d

/-- Embeds `CommandExecutor._create_note` including its tie bookkeeping:
takes the current `self._pending_tie` and returns the built note together
with the new `self._pending_tie`. -/
def createNote (pending : Option M21Note) (p : ParsedNote) : M21Note × Option M21Note :=
  let base : M21Note := ⟨p.pitch, elemQL p.duration p.dotted, p.lyric, none⟩
  if p.tied then
    let n := { base with tie := some .start }
    (n, some n)
  else
    match pending with
    | some _ => ({ base with tie := some .stop }, none)
    | none => (base, none)

/-- Embeds `CommandExecutor._create_rest`. -/
def createRest (p : ParsedRest) : M21Obj :=
  .rest (elemQL p.duration p.dotted)

/-- Embeds `CommandExecutor._create_chord`. -/
def createChord (p : ParsedChord) : M21Obj :=
  .chord (p.notes.map (·.pitch)) (elemQL p.duration p.dotted) p.lyric

/-- Duration (`quarterLength` in sixteenth units) of a measure element;
markings have zero duration in music21. -/
def objQL : M21Obj → Nat
  | .note n => n.ql
  | .rest q => q
  | .chord _ q _ => q
  | .clefObj => 0
  | .keyObj => 0
  | .timeObj _ => 0
  | .tempoObj => 0

/-- Model of a `stream.Measure` built by the executor.  `elems` holds the
appended music21 objects in order (music21 `append` places each at the end,
at the sum of the durations of the earlier elements).  `cap` is the
`capacity_beats` field of the spec's Measure data model, a ghost field the
builder never reads: the `beats_per_measure` (sixteenth units) in force when
the measure last received an event, or at its creation while it has none. -/
structure Measure where
  num : Nat
  cap : Nat
  elems : List M21Obj
  rightBar : Option BarStyle
deriving DecidableEq, Repr

/-- Fresh `stream.Measure(number=n)` under the current `beats_per_measure`. -/
def initMeasure (n : Nat) (bpm : Nat) : Measure :=
  ⟨n, bpm, [], none⟩

/-- State of one `create_score_from_elements` loop: the measures appended to
the part so far, the current measure, `measure_offset`, `beats_per_measure`
(sixteenth units), and the executor-instance field `self._pending_tie`.
(The part also holds a leading default `TrebleClef` appended before any
measure; it sits outside every measure and is never read back, so it is not
represented.) -/
structure BState where
  part : List Measure
  cur : Measure
  offset : Nat
  bpm : Nat
  pending : Option M21Note
deriving DecidableEq, Repr

/-- Initial loop state of `create_score_from_elements`: empty part, measure
number 1, offset 0, the implicit 4/4 giving `beats_per_measure = 4.0`
(64 sixteenths). -/
def initState (pending : Option M21Note) : BState :=
  { part := [], cur := initMeasure 1 64, offset := 0, bpm := 64, pending := pending }

/-- Embeds the note/rest/chord arm of the executor loop: close the current
measure first when `measure_offset + elem_duration > beats_per_measure`, then
append the event (updating the ghost `cap` to the capacity now in force) and
advance the offset. -/
def placeEvent (s : BState) (obj : M21Obj) (pend : Option M21Note) : BState :=
  let ql := objQL obj
  let s1 :=
    if s.offset + ql > s.bpm then
      { s with part := s.part ++ [s.cur],
               cur := initMeasure (s.cur.num + 1) s.bpm,
               offset := 0 }
    else s
  { s1 with cur := { s1.cur with elems := s1.cur.elems ++ [obj], cap := s1.bpm },
            offset := s1.offset + ql,
            pending := pend }

/-- One iteration of the element loop of `create_score_from_elements`,
parameterized by the music21 command interpretation `cmdElab`
(`_create_command_element`): a marking on success, `none` when
interpretation fails and the command is silently skipped. -/
def stepB (cmdElab : ParsedCommand → Option M21Marking) (s : BState) :
    ParsedElement → BState
  | .command c =>
    match cmdElab c with
    | none => s
    | some m =>
      let s1 :=
        match m with
        | .timeM b => { s with bpm := b }
        | _ => s
      { s1 with cur := { s1.cur with elems := s1.cur.elems ++ [markingObj m] } }
  | .barline st =>
    let closed :=
      { s.cur with
        rightBar :=
          match st with
          | .single => s.cur.rightBar
          | .double => some .double
          | .final => some .final }
    { s with part := s.part ++ [closed],
             cur := initMeasure (s.cur.num + 1) s.bpm,
             offset := 0 }
  | .note n =>
    let (obj, pend) := createNote s.pending n
    placeEvent s (.note obj) pend
  | .rest r => placeEvent s (createRest r) s.pending
  | .chord c => placeEvent s (createChord c) s.pending

/-- Runs the element loop from a given state. -/
def runFrom (cmdElab : ParsedCommand → Option M21Marking) (s : BState)
    (elems : List ParsedElement) : BState :=
  elems.foldl (stepB cmdElab) s

/-- True iff `current_measure.notes` is non-empty: the music21 `.notes`
iterator yields notes and chords but not rests. -/
def measureHasNotes (m : Measure) : Bool :=
  m.elems.any fun o =>
    match o with
    | .note _ => true
    | .chord _ _ _ => true
    | _ => false

/-- True iff `current_measure.getElementsByClass(clef.Clef)` is non-empty. -/
def measureHasClef (m : Measure) : Bool :=
  m.elems.any fun o =>
    match o with
    | .clefObj => true
    | _ => false

/-- Embeds `CommandExecutor.create_score_from_elements`: run the loop from
the executor's current `self._pending_tie`, then append the final measure
only when it passes the `current_measure.notes or
current_measure.getElementsByClass(clef.Clef)` check.  Returns the part's
measures together with the executor's `self._pending_tie` after the call
(the field is an instance attribute, set in `__init__` and never reset by
this method). -/
def createScoreFromElements (cmdElab : ParsedCommand → Option M21Marking)
    (pending : Option M21Note) (elems : List ParsedElement) :
    List Measure × Option M21Note :=
  let s := runFrom cmdElab (initState pending) elems
  let measures :=
    if measureHasNotes s.cur || measureHasClef s.cur then s.part ++ [s.cur]
    else s.part
  (measures, s.pending)

/-- Measures of the score built by a fresh `CommandExecutor`
(`execute_commands`): `__init__` sets `self._pending_tie = None`. -/
def buildScore (cmdElab : ParsedCommand → Option M21Marking)
    (elems : List ParsedElement) : List Measure :=
  (createScoreFromElements cmdElab none elems).1

/-- Event durations of a measure, in order; markings contribute nothing. -/
def eventQLs (m : Measure) : List Nat :=
  m.elems.filterMap fun o =>
    match o with
    | .note n => some n.ql
    | .rest q => some q
    | .chord _ q _ => some q
    | _ => none

/-- Sum of the event durations placed in a measure. -/
def sumEvents (m : Measure) : Nat :=
  (eventQLs m).sum

/-- Durations of the note/rest/chord elements of the input, in order. -/
def inputQLs (elems : List ParsedElement) : List Nat :=
  elems.filterMap fun e =>
    match e with
    | .note n => some (elemQL n.duration n.dotted)
    | .rest r => some (elemQL r.duration r.dotted)
    | .chord c => some (elemQL c.duration c.dotted)
    | _ => none

/-- Event durations across the closed measures and the current measure of a
loop state, in order: where every placed event currently sits. -/
def stateQLs (s : BState) : List Nat :=
  (s.part.flatMap eventQLs) ++ eventQLs s.cur

/-- Per-element check instrumenting one loop iteration: an event must fit in
an empty measure under the `beats_per_measure` in force when it is placed.
Barlines and commands place no event. -/
def elemFits (s : BState) : ParsedElement → Bool
  | .note n => decide (elemQL n.duration n.dotted ≤ s.bpm)
  | .rest r => decide (elemQL r.duration r.dotted ≤ s.bpm)
  | .chord c => decide (elemQL c.duration c.dotted ≤ s.bpm)
  | .command _ => true
  | .barline _ => true

/-- Run-level hypothesis of the bin-packing invariant: every event of the
input fits the capacity in force at the moment it is placed. -/
def fits (cmdElab : ParsedCommand → Option M21Marking) (s : BState) :
    List ParsedElement → Bool
  | [] => true
  | e :: rest => elemFits s e && fits cmdElab (stepB cmdElab s e) rest

/-- Onsets of the elements of a measure under music21 `append` semantics:
each element is placed at the sum of the durations of the elements before
it (sixteenth units). -/
def onsetsFrom (off : Nat) : List M21Obj → List (Nat × M21Obj)
  | [] => []
  | o :: rest => (off, o) :: onsetsFrom (off + objQL o) rest

/-- Onset-annotated contents of a measure. -/
def measureOnsets (m : Measure) : List (Nat × M21Obj) :=
  onsetsFrom 0 m.elems

/-- Notes of a measure, in order. -/
def measureNotes (m : Measure) : List M21Note :=
  m.elems.filterMap fun o =>
    match o with
    | .note n => some n
    | _ => none

/-- Tie marks of the notes of a built score, in placement order. -/
def scoreTies (ms : List Measure) : List (Option TieMark) :=
  (ms.flatMap measureNotes).map (·.tie)

/-- True on the note/rest/chord events of a measure. -/
def isEventObj : M21Obj → Bool
  | .note _ => true
  | .rest _ => true
  | .chord _ _ _ => true
  | _ => false

/-- Number of pending tie-starts recorded in a builder state: the source
keeps a single `Optional` slot. -/
def pendingTieCount (s : BState) : Nat :=
  match s.pending with
  | some _ => 1
  | none => 0

/-- Loop invariant of `create_score_from_elements`: `measure_offset` equals
the event-duration sum of the current measure, that sum never exceeds the
current measure's recorded capacity, and the same bound holds for every
measure already appended to the part. -/
def Inv (s : BState) : Prop :=
  s.offset = sumEvents s.cur ∧ s.offset ≤ s.cur.cap ∧ ∀ m ∈ s.part, sumEvents m ≤ m.cap

/-- Command oracle interpreting no command successfully; used for concrete
builds whose inputs contain no command anyway. -/
def cfgNone : ParsedCommand → Option M21Marking := fun _ => none

/-- Plain quarter note element on the given pitch. -/
def plainNote (p : String) : ParsedElement :=
  .note ⟨p, .quarter, false, none, false, false⟩

/-- Tie-started quarter note element on the given pitch. -/
def tiedNote (p : String) : ParsedElement :=
  .note ⟨p, .quarter, false, none, true, false⟩

/-- Concrete music21 note used as a pending tie-start. -/
def c4Note : M21Note := ⟨"A4", 16, none, none⟩

/-- Concrete non-tied parsed note. -/
def c4Plain : ParsedNote := ⟨"B4", .quarter, false, none, false, false⟩

/-- Concrete one-note input for the C1 witness. -/
def c1Elems : List ParsedElement := [plainNote "C4"]

/-! ## General lemmas -/

/-- The token loop does not depend on the exact fuel, as long as the fuel
bounds the number of remaining tokens. -/
theorem parseTokensAux_congr :
    ∀ (f1 f2 : Nat) (ts : List (List Char)), ts.length ≤ f1 → ts.length ≤ f2 →
      parseTokensAux f1 ts = parseTokensAux f2 ts := by
  intro f1
  induction f1 with
  | zero =>
    intro f2 ts h1 _
    have : ts = [] := List.length_eq_zero.mp (Nat.le_zero.mp h1)
    subst this
    cases f2 <;> rfl
  | succ f1 ih =>
    intro f2 ts h1 h2
    cases ts with
    | nil => cases f2 <;> rfl
    | cons tok rest =>
      cases f2 with
      | zero => exact absurd h2 (by simp)
      | succ f2 =>
        simp only [parseTokensAux]
        congr 1
        have hd : (rest.drop (stepTok tok rest).2).length ≤ rest.length := by
          simp
        have h1a : rest.length + 1 ≤ f1 + 1 := by simpa using h1
        have h2a : rest.length + 1 ≤ f2 + 1 := by simpa using h2
        apply ih <;> omega

/-- Unfolding of the token loop at a cons cell. -/
theorem parseTokens_cons (tok : List Char) (rest : List (List Char)) :
    parseTokens (tok :: rest) =
      (stepTok tok rest).1.toList ++ parseTokens (rest.drop (stepTok tok rest).2) := by
  show parseTokensAux (tok :: rest).length (tok :: rest) = _
  simp only [List.length_cons, parseTokensAux]
  congr 1
  apply parseTokensAux_congr
  · simp
  · exact Nat.le_refl _

/-- The accumulating fold of `parse` concatenates the per-line
contributions in order. -/
theorem parse_foldl (L : List (List Char)) (a : List ParsedElement)
    (b : List CommandParseError) :
    L.foldl (fun acc raw => (acc.1 ++ (lineContrib raw).1, acc.2 ++ (lineContrib raw).2))
        (a, b)
      = (a ++ L.flatMap (fun raw => (lineContrib raw).1),
         b ++ L.flatMap (fun raw => (lineContrib raw).2)) := by
  induction L generalizing a b with
  | nil => simp
  | cons raw L ih => simp [ih]

/-- A line never contributes a diagnostic (there is no `raise` in the line
parser). -/
theorem lineContrib_snd (raw : List Char) : (lineContrib raw).2 = [] := by
  simp only [lineContrib, lineDiagnostics]
  split <;> rfl

/-! ## Bin-packing invariant of the executor loop -/

/-- The note built by `_create_note` always carries the parsed element's
effective duration, whatever the tie bookkeeping does. -/
theorem createNote_ql (pending : Option M21Note) (p : ParsedNote) :
    (createNote pending p).1.ql = elemQL p.duration p.dotted := by
  unfold createNote
  cases hp : p.tied
  · cases pending <;> simp [hp]
  · simp [hp]

/-- Closed form of `_create_note`: the built note carries the parsed pitch,
duration and lyric, its tie mark is start when `tied` is set and otherwise
stop exactly when a tie is pending, and the new pending slot holds the note
itself exactly when `tied` is set. -/
theorem createNote_eq (pending : Option M21Note) (p : ParsedNote) :
    createNote pending p =
      (⟨p.pitch, elemQL p.duration p.dotted, p.lyric,
         if p.tied then some TieMark.start else pending.map fun _ => TieMark.stop⟩,
       if p.tied then
         some ⟨p.pitch, elemQL p.duration p.dotted, p.lyric,
           if p.tied then some TieMark.start else pending.map fun _ => TieMark.stop⟩
       else none) := by
  cases hp : p.tied <;> cases pending <;> simp [createNote, hp]

/-- Markings contribute no event duration to a measure. -/
theorem eventQLs_marking (l : List M21Obj) (mk : M21Marking) :
    (l ++ [markingObj mk]).filterMap
        (fun o =>
          match o with
          | .note n => some n.ql
          | .rest q => some q
          | .chord _ q _ => some q
          | _ => none)
      = l.filterMap
        (fun o =>
          match o with
          | .note n => some n.ql
          | .rest q => some q
          | .chord _ q _ => some q
          | _ => none) := by
  cases mk <;> simp [List.filterMap_append, markingObj]

/-- Placing one event preserves the invariant provided the event fits an
empty measure under the capacity in force. -/
theorem inv_place (s : BState) (obj : M21Obj) (pend : Option M21Note)
    (hI : Inv s) (hql : objQL obj ≤ s.bpm) (hev : isEventObj obj = true) :
    Inv (placeEvent s obj pend) := by
  obtain ⟨h1, h2, h3⟩ := hI
  unfold placeEvent
  dsimp only
  by_cases hov : s.offset + objQL obj > s.bpm
  · rw [if_pos hov]
    refine ⟨?_, ?_, ?_⟩
    · cases obj <;> simp_all [sumEvents, eventQLs, objQL, isEventObj, initMeasure]
    · simpa [initMeasure] using hql
    · intro m hm
      rcases List.mem_append.mp hm with hm | hm
      · exact h3 m hm
      · rcases List.mem_singleton.mp hm with rfl
        exact h1.symm.le.trans h2
  · rw [if_neg hov]
    refine ⟨?_, ?_, ?_⟩
    · cases obj <;>
        simp_all [sumEvents, eventQLs, objQL, isEventObj, List.filterMap_append]
    · simpa using Nat.le_of_not_lt hov
    · exact h3

/-- One loop iteration preserves the invariant, given that the element (when
it is an event) fits the capacity in force. -/
theorem inv_step (cmdElab : ParsedCommand → Option M21Marking) (s : BState)
    (e : ParsedElement) (hI : Inv s) (hf : elemFits s e = true) :
    Inv (stepB cmdElab s e) := by
  obtain ⟨h1, h2, h3⟩ := hI
  cases e with
  | note n =>
    rcases hcn : createNote s.pending n with ⟨obj, pend⟩
    have hql : obj.ql = elemQL n.duration n.dotted := by
      have := createNote_ql s.pending n
      rw [hcn] at this
      exact this
    have hle : elemQL n.duration n.dotted ≤ s.bpm := by
      simpa [elemFits] using hf
    simp only [stepB, hcn]
    exact inv_place s (.note obj) pend ⟨h1, h2, h3⟩ (by simpa [objQL, hql] using hle) rfl
  | rest r =>
    have hle : elemQL r.duration r.dotted ≤ s.bpm := by
      simpa [elemFits] using hf
    exact inv_place s (createRest r) s.pending ⟨h1, h2, h3⟩
      (by simpa [objQL, createRest] using hle) rfl
  | chord c =>
    have hle : elemQL c.duration c.dotted ≤ s.bpm := by
      simpa [elemFits] using hf
    exact inv_place s (createChord c) s.pending ⟨h1, h2, h3⟩
      (by simpa [objQL, createChord] using hle) rfl
  | barline st =>
    refine ⟨by simp [stepB, sumEvents, eventQLs, initMeasure], by simp [stepB, initMeasure], ?_⟩
    intro m hm
    simp only [stepB] at hm
    rcases List.mem_append.mp hm with hm | hm
    · exact h3 m hm
    · rcases List.mem_singleton.mp hm with rfl
      exact h1.symm.le.trans h2
  | command c =>
    cases hcc : cmdElab c with
    | none => simpa [stepB, hcc] using ⟨h1, h2, h3⟩
    | some m =>
      cases m <;>
        refine ⟨?_, ?_, ?_⟩ <;>
          simp_all [stepB, hcc, sumEvents, eventQLs, eventQLs_marking, markingObj]

/-- The invariant holds after any run whose events all fit the capacities in
force when they are placed. -/
theorem inv_run (cmdElab : ParsedCommand → Option M21Marking) :
    ∀ (elems : List ParsedElement) (s : BState), Inv s →
      fits cmdElab s elems = true → Inv (runFrom cmdElab s elems) := by
  intro elems
  induction elems with
  | nil => intro s hI _; exact hI
  | cons e rest ih =>
    intro s hI hf
    rw [fits, Bool.and_eq_true] at hf
    simpa [runFrom] using ih (stepB cmdElab s e) (inv_step cmdElab s e hI hf.1) hf.2

/-- `inputQLs` distributes over cons. -/
theorem inputQLs_cons (e : ParsedElement) (es : List ParsedElement) :
    inputQLs (e :: es) = inputQLs [e] ++ inputQLs es := by
  cases e <;> simp [inputQLs]

/-- Placing one event appends exactly its duration to the placed-event
trace: the event goes whole into a single measure. -/
theorem stateQLs_place (s : BState) (obj : M21Obj) (pend : Option M21Note)
    (hev : isEventObj obj = true) :
    stateQLs (placeEvent s obj pend) = stateQLs s ++ [objQL obj] := by
  unfold placeEvent
  dsimp only
  by_cases hov : s.offset + objQL obj > s.bpm
  · rw [if_pos hov]
    cases obj <;>
      simp_all [stateQLs, eventQLs, objQL, isEventObj, initMeasure,
        List.filterMap_append]
  · rw [if_neg hov]
    cases obj <;>
      simp_all [stateQLs, eventQLs, objQL, isEventObj, List.filterMap_append]

/-- One loop iteration appends exactly the input element's event durations
(none for barlines and commands) to the placed-event trace. -/
theorem stateQLs_step (cmdElab : ParsedCommand → Option M21Marking)
    (s : BState) (e : ParsedElement) :
    stateQLs (stepB cmdElab s e) = stateQLs s ++ inputQLs [e] := by
  cases e with
  | note n =>
    rcases hcn : createNote s.pending n with ⟨obj, pend⟩
    have hql : obj.ql = elemQL n.duration n.dotted := by
      have := createNote_ql s.pending n
      rw [hcn] at this
      exact this
    simp only [stepB, hcn]
    rw [stateQLs_place s (.note obj) pend rfl]
    simp [inputQLs, objQL, hql]
  | rest r =>
    rw [stepB, stateQLs_place s (createRest r) s.pending rfl]
    simp [inputQLs, objQL, createRest]
  | chord c =>
    rw [stepB, stateQLs_place s (createChord c) s.pending rfl]
    simp [inputQLs, objQL, createChord]
  | barline st =>
    simp [stepB, stateQLs, eventQLs, inputQLs, initMeasure]
  | command c =>
    cases hcc : cmdElab c with
    | none => simp [stepB, hcc, inputQLs]
    | some m =>
      cases m <;>
        simp [stepB, hcc, stateQLs, eventQLs, eventQLs_marking, inputQLs, markingObj]

/-- A run appends exactly the input's event durations to the placed-event
trace, in order: every event is placed whole in exactly one measure, never
split. -/
theorem stateQLs_run (cmdElab : ParsedCommand → Option M21Marking) :
    ∀ (elems : List ParsedElement) (s : BState),
      stateQLs (runFrom cmdElab s elems) = stateQLs s ++ inputQLs elems := by
  intro elems
  induction elems with
  | nil => intro s; simp [runFrom, inputQLs]
  | cons e es ih =>
    intro s
    have : runFrom cmdElab s (e :: es) = runFrom cmdElab (stepB cmdElab s e) es := by
      simp [runFrom]
    rw [this, ih, stateQLs_step, inputQLs_cons e es, List.append_assoc]

/-! ## Claim theorems -/

/-- C1: in a structural build every event is placed whole into exactly one
measure (the trace of placed event durations equals the input's event
durations in order, so no event is split across a measure boundary and an
event longer than a full empty measure still lands whole in a single
measure), and whenever every event's effective length (base length, times
1.5 when dotted) is at most the `beats_per_measure` in force when it is
placed, every measure appended to the part has event-duration sum at most
its capacity (sixteenth units: 16 = one quarter-note beat). -/
theorem claim_C1 (cmdElab : ParsedCommand → Option M21Marking)
    (elems : List ParsedElement) :
    stateQLs (runFrom cmdElab (initState none) elems) = inputQLs elems
    ∧ (fits cmdElab (initState none) elems = true →
        ∀ m ∈ buildScore cmdElab elems, sumEvents m ≤ m.cap) := by
  constructor
  · have h := stateQLs_run cmdElab elems (initState none)
    simpa [stateQLs, initState, initMeasure, eventQLs] using h
  · intro hf m hm
    have hI0 : Inv (initState none) :=
      ⟨rfl, by simp [initState, initMeasure], by simp [initState]⟩
    obtain ⟨h1, h2, h3⟩ := inv_run cmdElab elems (initState none) hI0 hf
    unfold buildScore createScoreFromElements at hm
    dsimp only at hm
    split at hm
    · rcases List.mem_append.mp hm with hm | hm
      · exact h3 m hm
      · rcases List.mem_singleton.mp hm with rfl
        exact h1.symm.le.trans h2
    · exact h3 m hm

/-- Witness for C1 at a concrete input: the single quarter note fits, and
the sole built measure satisfies the capacity bound. -/
theorem claim_C1_witness :
    fits cfgNone (initState none) c1Elems = true
    ∧ sumEvents ((buildScore cfgNone c1Elems).headD (initMeasure 1 64))
        ≤ ((buildScore cfgNone c1Elems).headD (initMeasure 1 64)).cap :=
  ⟨by decide, (claim_C1 cfgNone c1Elems).2 (by decide) _ (by decide)⟩

/-- C2: `parse` always terminates with the full element list and the full
diagnostics list, each the in-order concatenation of the per-line
contributions over all lines of the input, and `validate` returns exactly
the diagnostics that re-running `parse` produces. -/
theorem claim_C2 (text : String) :
    (parse text).1
        = (splitNl (trimChars text.data)).flatMap (fun raw => (lineContrib raw).1)
    ∧ (parse text).2
        = (splitNl (trimChars text.data)).flatMap (fun raw => (lineContrib raw).2)
    ∧ validate text = (parse text).2 := by
  refine ⟨?_, ?_, rfl⟩ <;>
  · unfold parse
    rw [parse_foldl]
    simp

/-- C3 (code bug): the token `C4-` is rejected by the anchored
`PITCH_PATTERN` (which admits no `-` suffix), so the line parser skips it as
an unknown token and `parse "C4-"` emits no element at all; the tie-stripping
branch inside `_parse_note` is unreachable because of the same guard. -/
theorem claim_C3 :
    isPitch ['C', '4', '-'] = false
    ∧ parse "C4-" = ([], [])
    ∧ parseNote [['C', '4', '-']] = (none, 0) :=
  ⟨by decide, by decide, by decide⟩

/-- C4: building `[Note A tied, Note B, Note C]` in one invocation marks A
tie-start, B tie-stop, C nothing, with no pending tie left at the end;
tie-stop resolution is purely positional (any non-tied note consumed while a
tie is pending is marked stop, whatever its pitch); and at most one pending
tie-start exists at any time (the state holds one optional slot). -/
theorem claim_C4 :
    (∀ (cmdElab : ParsedCommand → Option M21Marking) (pa pb pc : String),
      scoreTies (buildScore cmdElab
          [.note ⟨pa, .quarter, false, none, true, false⟩,
           .note ⟨pb, .quarter, false, none, false, false⟩,
           .note ⟨pc, .quarter, false, none, false, false⟩])
          = [some .start, some .stop, none]
      ∧ (runFrom cmdElab (initState none)
          [.note ⟨pa, .quarter, false, none, true, false⟩,
           .note ⟨pb, .quarter, false, none, false, false⟩,
           .note ⟨pc, .quarter, false, none, false, false⟩]).pending = none)
    ∧ (∀ (x : M21Note) (n : ParsedNote), n.tied = false →
        (createNote (some x) n).1.tie = some .stop
        ∧ (createNote (some x) n).2 = none)
    ∧ (∀ s : BState, pendingTieCount s ≤ 1) := by
  refine ⟨?_, ?_, ?_⟩
  · intro cmdElab pa pb pc
    constructor <;>
      simp [buildScore, createScoreFromElements, runFrom, stepB, placeEvent,
        createNote_eq, elemQL, durationMap16, initState, initMeasure, scoreTies,
        measureNotes, measureHasNotes, objQL]
  · intro x n h
    constructor <;> simp [createNote, h]
  · intro s
    cases hp : s.pending <;> simp [pendingTieCount, hp]

/-- Witness for C4 at concrete inputs: the three-note build on pitches
A4/B4/C4 and a positional tie-stop on a concrete pending note. -/
theorem claim_C4_witness :
    scoreTies (buildScore cfgNone
        [.note ⟨"A4", .quarter, false, none, true, false⟩,
         .note ⟨"B4", .quarter, false, none, false, false⟩,
         .note ⟨"C4", .quarter, false, none, false, false⟩])
        = [some .start, some .stop, none]
    ∧ (createNote (some c4Note) c4Plain).1.tie = some .stop :=
  ⟨(claim_C4.1 cfgNone "A4" "B4" "C4").1,
   (claim_C4.2.1 c4Note c4Plain rfl).1⟩

/-- C5 counterexample: with the same executor, building `[A4 tied]` first
and then `[B4]` yields a different second score (B4 comes out marked
tie-stop) than building `[B4]` fresh, so invocation state does leak. -/
theorem claim_C5_counterexample :
    (createScoreFromElements cfgNone
        ((createScoreFromElements cfgNone none [tiedNote "A4"]).2)
        [plainNote "B4"]).1
      ≠ buildScore cfgNone [plainNote "B4"] := by decide

/-- C5 (amended): the loop state (part, current measure, offset, capacity)
is re-initialized on every invocation, but the pending tie is
executor-instance state: a second build reproduces the fresh build exactly
when the first build left no pending tie-start; with a pending tie left
over, the result can differ (see the counterexample). -/
theorem claim_C5_thm (cmdElab : ParsedCommand → Option M21Marking)
    (e1 e2 : List ParsedElement)
    (h : (createScoreFromElements cmdElab none e1).2 = none) :
    (createScoreFromElements cmdElab
        ((createScoreFromElements cmdElab none e1).2) e2).1
      = buildScore cmdElab e2 := by
  rw [h]
  rfl

/-- Witness for C5 at a concrete input: a first build with no tie leaves no
pending state, and the second build equals the fresh build. -/
theorem claim_C5_witness :
    (createScoreFromElements cfgNone
        ((createScoreFromElements cfgNone none [plainNote "A4"]).2)
        [plainNote "B4"]).1
      = buildScore cfgNone [plainNote "B4"] :=
  claim_C5_thm cfgNone [plainNote "A4"] [plainNote "B4"] (by decide)

/-- C6 counterexample: the token `rest` emits nothing — the rest rule
compares `token.lower()` against `"r"` only, and `rest` matches no other
rule — so `parse "rest"` produces no Rest element. -/
theorem claim_C6_counterexample :
    (parse "rest").1 = []
    ∧ (parse "rest").1 ≠ [ParsedElement.rest ⟨.quarter, false⟩] :=
  ⟨by decide, by decide⟩

/-- C6 (amended): only a token case-insensitively equal to `r` emits a Rest:
when the following token matches the duration grammar both tokens are
consumed and set the duration and dotted flag, otherwise only the one token
is consumed and the Rest defaults to Quarter, not dotted.  (`rest` is
skipped as an unknown token — see the counterexample.) -/
theorem claim_C6_thm (t : List Char) (ts : List (List Char))
    (h : t.map Char.toLower = ['r']) :
    (∀ (d : Duration) (dot : Bool),
      parseDurationToken (ts.headD ['q']) = (some d, dot) →
        parseTokens (t :: ts) = .rest ⟨d, dot⟩ :: parseTokens (ts.drop 1))
    ∧ ((parseDurationToken (ts.headD ['q'])).1 = none →
        parseTokens (t :: ts) = .rest ⟨.quarter, false⟩ :: parseTokens ts) := by
  constructor
  · intro d dot hd
    rw [parseTokens_cons]
    unfold stepTok
    rw [h, if_pos rfl, hd]
    rfl
  · intro hd
    rcases hp : parseDurationToken (ts.headD ['q']) with ⟨fst, snd⟩
    rw [hp] at hd
    dsimp only at hd
    subst hd
    rw [parseTokens_cons]
    unfold stepTok
    rw [h, if_pos rfl, hp]
    rfl

/-- Witness for C6 at a concrete input: the single token `R` emits one
default quarter Rest. -/
theorem claim_C6_witness :
    parseTokens [['R']] = [ParsedElement.rest ⟨.quarter, false⟩] :=
  (claim_C6_thm ['R'] [] (by decide)).1 .quarter false (by decide)

/-- C7 counterexample: building just one quarter Rest leaves the final
current measure holding an event, yet the measure is dropped (the source
checks `.notes`, which excludes rests, and clefs only), so the part ends up
with no measure at all, contrary to the claimed append condition. -/
theorem claim_C7_counterexample :
    ((runFrom cfgNone (initState none)
        [ParsedElement.rest ⟨.quarter, false⟩]).cur.elems.any isEventObj) = true
    ∧ buildScore cfgNone [ParsedElement.rest ⟨.quarter, false⟩] = [] :=
  ⟨by decide, by decide⟩

/-- C7 (amended): at end of input the current measure is appended to the
part if and only if it contains at least one note or chord (music21
`.notes`, which excludes rests) or at least one clef; rests and key, time,
or tempo markings do not trigger the append. -/
theorem claim_C7_thm (cmdElab : ParsedCommand → Option M21Marking)
    (elems : List ParsedElement) :
    (buildScore cmdElab elems
          = (runFrom cmdElab (initState none) elems).part
              ++ [(runFrom cmdElab (initState none) elems).cur]
      ∨ buildScore cmdElab elems = (runFrom cmdElab (initState none) elems).part)
    ∧ (buildScore cmdElab elems
          = (runFrom cmdElab (initState none) elems).part
              ++ [(runFrom cmdElab (initState none) elems).cur]
        ↔ (measureHasNotes (runFrom cmdElab (initState none) elems).cur
            || measureHasClef (runFrom cmdElab (initState none) elems).cur) = true) := by
  unfold buildScore createScoreFromElements
  dsimp only
  by_cases hc : (measureHasNotes (runFrom cmdElab (initState none) elems).cur
      || measureHasClef (runFrom cmdElab (initState none) elems).cur) = true
  · rw [if_pos hc]
    exact ⟨Or.inl rfl, by simp [hc]⟩
  · rw [if_neg hc]
    refine ⟨Or.inr rfl, ?_, fun hTrue => absurd hTrue hc⟩
    intro hEq
    have := congrArg List.length hEq
    simp at this

/-- Witness for C7 at a concrete input: a build ending with a note keeps its
final measure. -/
theorem claim_C7_witness :
    buildScore cfgNone [plainNote "B4"]
      = (runFrom cfgNone (initState none) [plainNote "B4"]).part
          ++ [(runFrom cfgNone (initState none) [plainNote "B4"]).cur] :=
  (claim_C7_thm cfgNone [plainNote "B4"]).2.mpr (by decide)

/-- C8: a structural build of exactly five quarter (not dotted) notes under
the default `beats_per_measure` of 4 beats (64 sixteenths) yields exactly
two measures: measure 1 holding four notes at onsets 0, 1, 2, 3 beats
(0, 16, 32, 48 sixteenths), measure 2 one note at onset 0, and no empty
trailing measure. -/
theorem claim_C8 (cmdElab : ParsedCommand → Option M21Marking)
    (n1 n2 n3 n4 n5 : ParsedNote)
    (h : ∀ n ∈ [n1, n2, n3, n4, n5],
      n.duration = Duration.quarter ∧ n.dotted = false) :
    let ms := buildScore cmdElab [.note n1, .note n2, .note n3, .note n4, .note n5]
    ms.length = 2
    ∧ (ms.headD (initMeasure 1 64)).elems.length = 4
    ∧ (measureNotes (ms.headD (initMeasure 1 64))).length = 4
    ∧ (measureOnsets (ms.headD (initMeasure 1 64))).map Prod.fst = [0, 16, 32, 48]
    ∧ (ms.getD 1 (initMeasure 1 64)).elems.length = 1
    ∧ (measureNotes (ms.getD 1 (initMeasure 1 64))).length = 1
    ∧ (measureOnsets (ms.getD 1 (initMeasure 1 64))).map Prod.fst = [0] := by
  obtain ⟨hd1, ht1⟩ := h n1 (by simp)
  obtain ⟨hd2, ht2⟩ := h n2 (by simp)
  obtain ⟨hd3, ht3⟩ := h n3 (by simp)
  obtain ⟨hd4, ht4⟩ := h n4 (by simp)
  obtain ⟨hd5, ht5⟩ := h n5 (by simp)
  rcases n1 with ⟨p1, d1, o1, l1, t1, s1⟩
  rcases n2 with ⟨p2, d2, o2, l2, t2, s2⟩
  rcases n3 with ⟨p3, d3, o3, l3, t3, s3⟩
  rcases n4 with ⟨p4, d4, o4, l4, t4, s4⟩
  rcases n5 with ⟨p5, d5, o5, l5, t5, s5⟩
  dsimp only at hd1 ht1 hd2 ht2 hd3 ht3 hd4 ht4 hd5 ht5
  subst hd1 ht1 hd2 ht2 hd3 ht3 hd4 ht4 hd5 ht5
  simp [buildScore, createScoreFromElements, runFrom, stepB, placeEvent,
    createNote_eq, elemQL, durationMap16, initState, initMeasure, measureNotes,
    measureOnsets, onsetsFrom, objQL, measureHasNotes]

/-- Witness for C8 at a concrete input: five concrete quarter notes. -/
theorem claim_C8_witness :
    let ms := buildScore cfgNone [plainNote "C4", plainNote "D4", plainNote "E4",
      plainNote "F4", plainNote "G4"]
    ms.length = 2
    ∧ (ms.headD (initMeasure 1 64)).elems.length = 4
    ∧ (measureNotes (ms.headD (initMeasure 1 64))).length = 4
    ∧ (measureOnsets (ms.headD (initMeasure 1 64))).map Prod.fst = [0, 16, 32, 48]
    ∧ (ms.getD 1 (initMeasure 1 64)).elems.length = 1
    ∧ (measureNotes (ms.getD 1 (initMeasure 1 64))).length = 1
    ∧ (measureOnsets (ms.getD 1 (initMeasure 1 64))).map Prod.fst = [0] :=
  claim_C8 cfgNone ⟨"C4", .quarter, false, none, false, false⟩
    ⟨"D4", .quarter, false, none, false, false⟩
    ⟨"E4", .quarter, false, none, false, false⟩
    ⟨"F4", .quarter, false, none, false, false⟩
    ⟨"G4", .quarter, false, none, false, false⟩ (by decide)

/-- C9: `validate` returns the empty list for every input text: no
line-parsing path raises `CommandParseError`, the only exception `parse`
catches, so the structured diagnostics list is empty after every parse. -/
theorem claim_C9 (text : String) : validate text = [] := by
  unfold validate parse
  rw [parse_foldl]
  simp [lineContrib_snd]

/-- C10: an unclosed chord bracket makes the tokenizer keep the whole line
remainder as one token, and chord parsing strips its first and last
characters as if they were brackets, losing the final character of the last
pitch: `parse "[C4 E4"` emits one Chord whose note list is exactly `[C4]`. -/
theorem claim_C10 :
    parse "[C4 E4"
      = ([ParsedElement.chord
            ⟨[⟨"C4", .quarter, false, none, false, false⟩], .quarter, false, none⟩],
         []) := by decide

end ScoreForge
